import Mathlib

/-!
Verification of the API discovery agent.

This file gives a shallow embedding, in Lean 4, of the parts of the
repository that the specification talks about:

- the AI discovery loop of src/ai_api_discovery.py
  (search_company_api, with its helpers uniqueNew and searchLoopAux),
- the response parsing pipeline of the same file
  (clean_json_response, salvage_json, make_api_request) together with a
  model of the standard JSON decoder,
- the heuristic extractor and the documentation URL discovery of
  api_discovery.py,
- the two spreadsheet exporters (excel_exporter.py in both trees),
  modelled as the list of data rows they write.

Machine strings are modelled as Lean String values; the Python string
operations used by the code (strip, lower, upper, split, join, count,
slicing) are re-implemented over List Char so that every definition is
executable and kernel-reducible.  Python while loops are translated to
structurally recursive functions over an explicit fuel argument; the
fuel is always chosen at the call site so that it cannot run out before
the loop condition of the source fails, and the source loop condition is
kept as a visible guard inside the body.
-/

/-! ## Python string primitives -/

/-- Python whitespace class, as used by str.strip and by the regex
class backslash-s: space, tab, newline, carriage return, vertical tab,
form feed (ASCII fragment; the inputs in this development are ASCII). -/
def isPyWhitespace (c : Char) : Bool :=
  c.toNat == 32 || c.toNat == 9 || c.toNat == 10 || c.toNat == 13 ||
  c.toNat == 11 || c.toNat == 12

/-- ASCII lower-casing of one character, modelling str.lower on the
ASCII inputs this program manipulates. -/
def pyLowerChar (c : Char) : Char :=
  if 65 ≤ c.toNat ∧ c.toNat ≤ 90 then Char.ofNat (c.toNat + 32) else c

/-- ASCII upper-casing of one character, modelling str.upper. -/
def pyUpperChar (c : Char) : Char :=
  if 97 ≤ c.toNat ∧ c.toNat ≤ 122 then Char.ofNat (c.toNat - 32) else c

/-- str.lower. -/
def pyLower (s : String) : String := String.mk (s.data.map pyLowerChar)

/-- str.upper. -/
def pyUpper (s : String) : String := String.mk (s.data.map pyUpperChar)

/-- str.strip with no argument: drop leading and trailing whitespace. -/
def pyStripList (cs : List Char) : List Char :=
  ((cs.dropWhile isPyWhitespace).reverse.dropWhile isPyWhitespace).reverse

/-- str.strip on strings. -/
def pyStrip (s : String) : String := String.mk (pyStripList s.data)

/-- str.count for a single-character argument. -/
def pyCountChar (s : String) (c : Char) : Nat :=
  (s.data.filter (fun d => d == c)).length

/-- Slicing from the start, s[:n]. -/
def pyTake (s : String) (n : Nat) : String := String.mk (s.data.take n)

/-- str.replace(" ", ""): removing every space character. -/
def pyRemoveSpaces (s : String) : String :=
  String.mk (s.data.filter (fun c => !(c == ' ')))

/-- One step of str.split(sep) for a non-empty separator: fuel-driven
scan over the character list.  The fuel is at least the length of the
scanned list plus one, and every recursive call consumes at least one
character, so the fuel never runs out on the calls made below. -/
def pySplitAux (sep : List Char) : Nat → List Char → List Char → List (List Char)
  | 0, cur, cs => [cur.reverse ++ cs]
  | _ + 1, cur, [] => [cur.reverse]
  | fuel + 1, cur, c :: cs =>
    if sep.isPrefixOf (c :: cs) then
      cur.reverse :: pySplitAux sep fuel [] ((c :: cs).drop sep.length)
    else
      pySplitAux sep fuel (c :: cur) cs

/-- str.split(sep) for a non-empty separator (Python semantics: the
pieces between non-overlapping leftmost occurrences, with empty pieces
kept). -/
def pySplit (s sep : String) : List String :=
  (pySplitAux sep.data (s.data.length + 1) [] s.data).map String.mk

/-- sep.join(parts). -/
def pyJoin (sep : String) : List String → String
  | [] => ""
  | p :: ps => ps.foldl (fun acc q => acc ++ sep ++ q) p

/-- Substring test: pat occurs somewhere in hay (the Python in
operator on strings). -/
def pyContainsSub (hay pat : String) : Bool :=
  hay.data.tails.any (fun t => pat.data.isPrefixOf t)

/-! ## Data model: endpoints and AI discovery results

An endpoint record as produced by the AI path: the parameters field of
the source dictionaries is carried by none of the operations modelled
here (deduplication keys use only method and path, the exporter writes
method, path and description), so the model keeps the three fields the
claims are about. -/

structure Endpoint where
  method : String
  path : String
  description : String
  deriving Repr, DecidableEq

/-- The dictionary returned by AIAPIDiscovery.search_company_api and
its helpers: company_name, has_api, api_type, base_url, endpoints,
error (empty string when absent). -/
structure AIResult where
  company_name : String
  has_api : Bool
  api_type : String
  base_url : String
  endpoints : List Endpoint
  error : String
  deriving Repr, DecidableEq

/-- AIAPIDiscovery._empty_result. -/
def empty_result (company_name error : String) : AIResult :=
  { company_name := company_name, has_api := false, api_type := "",
    base_url := "", endpoints := [], error := error }

/-! ## The AI discovery loop (src/ai_api_discovery.py, lines 37-92) -/

/-- The deduplication key built at lines 78-80 of
src/ai_api_discovery.py: the f-string method colon path, with the
method used verbatim (no case normalization). -/
def epKey (ep : Endpoint) : String := ep.method ++ ":" ++ ep.path

/-- Lines 77-80: filter an incoming batch against the accumulated
list, keeping the endpoints whose key is not yet present.  Keys are
compared only against the accumulated list, not within the batch. -/
def uniqueNew (newEndpoints allEndpoints : List Endpoint) : List Endpoint :=
  let existingPaths := allEndpoints.map epKey
  newEndpoints.filter (fun ep => !(existingPaths.contains (epKey ep)))

/-- max_iterations at line 65. -/
def maxIterations : Nat := 5

/-- The while loop of lines 68-88.  The additional argument models the
endpoints field of the dictionary returned by
_fetch_additional_endpoints on the given iteration with the given
accumulated list (the stub backends of the specification vary by call
number, hence the iteration argument).  The pair returned is the final
accumulated list together with the number of additional requests
issued.  The fuel only bounds the recursion depth: the loop condition
iteration less than maxIterations is checked exactly as in the source,
and all call sites pass fuel at least maxIterations, which the guard
makes sufficient. -/
def searchLoopAux (additional : Nat → List Endpoint → List Endpoint) :
    Nat → Nat → List Endpoint → Nat → List Endpoint × Nat
  | 0, _, allEndpoints, calls => (allEndpoints, calls)
  | fuel + 1, iteration, allEndpoints, calls =>
    if iteration < maxIterations then
      let newEndpoints := additional iteration allEndpoints
      if newEndpoints.isEmpty then
        (allEndpoints, calls + 1)
      else
        let u := uniqueNew newEndpoints allEndpoints
        if u.isEmpty then
          (allEndpoints, calls + 1)
        else
          searchLoopAux additional fuel (iteration + 1) (allEndpoints ++ u) (calls + 1)
    else (allEndpoints, calls)

/-- AIAPIDiscovery.search_company_api (lines 37-92), parameterized by
the outcome of the initial fetch (initResult, the dictionary produced
by _fetch_endpoints) and by the per-round additional fetches.  Returns
the final result together with the total number of request rounds
issued (the initial fetch counts as one round). -/
def search_company_api (company_name : String) (initResult : AIResult)
    (additional : Nat → List Endpoint → List Endpoint) : AIResult × Nat :=
  if initResult.has_api = false then (initResult, 1)
  else
    let withBase :=
      if initResult.base_url = "" then { initResult with base_url := "N/A" }
      else initResult
    let withType :=
      if withBase.api_type = "" then { withBase with api_type := "REST" }
      else withBase
    let withName :=
      if withType.company_name = "" then { withType with company_name := company_name }
      else withType
    let out := searchLoopAux additional maxIterations 1 withName.endpoints 0
    ({ withName with endpoints := out.1 }, 1 + out.2)

/-- A stub backend for exercising the round cap: every call returns one
endpoint whose path is strictly longer than every key in the
accumulated list, hence always new. -/
def capWitnessF : Nat → List Endpoint → List Endpoint :=
  fun _ allEndpoints =>
    [{ method := "GET",
       path := String.mk (List.replicate
         ((allEndpoints.map (fun ep => (epKey ep).length)).sum + 1) 'x'),
       description := "stub" }]

/-! ## JSON cleanup (AIAPIDiscovery._clean_json_response, lines 234-245)

The cleanup applies four regex substitutions in order: comma-ws-brace
to brace, comma-ws-bracket to bracket, line comments (double slash to
end of line, MULTILINE), block comments (slash-star to the nearest
star-slash, DOTALL non-greedy), then strips the result.  Each pass is
translated as a left-to-right scan that replaces non-overlapping
leftmost matches and resumes after the replacement, which is the
re.sub behaviour.  The fuel of each scan equals the input length; every
recursive call consumes at least one character, so it never runs out. -/

/-- Consume whitespace then the given closing character; none when the
pattern comma-ws-close does not match here. -/
def dropWsThen (close : Char) : List Char → Option (List Char)
  | [] => none
  | c :: cs =>
    if c == close then some cs
    else if isPyWhitespace c then dropWsThen close cs
    else none

/-- One regex pass replacing comma-whitespace-close by close. -/
def subCommaCloseAux (close : Char) : Nat → List Char → List Char
  | 0, cs => cs
  | _ + 1, [] => []
  | fuel + 1, c :: cs =>
    if c == ',' then
      match dropWsThen close cs with
      | some rest => close :: subCommaCloseAux close fuel rest
      | none => c :: subCommaCloseAux close fuel cs
    else c :: subCommaCloseAux close fuel cs

def subCommaClose (close : Char) (cs : List Char) : List Char :=
  subCommaCloseAux close cs.length cs

/-- Skip to the end of the current line; the newline itself is kept
(the regex dot does not match newlines). -/
def dropLineRest : List Char → List Char
  | [] => []
  | c :: cs => if c == '\n' then c :: cs else dropLineRest cs

/-- One regex pass removing double-slash line comments (MULTILINE). -/
def removeLineCommentsAux : Nat → List Char → List Char
  | 0, cs => cs
  | _ + 1, [] => []
  | fuel + 1, c :: cs =>
    if c == '/' then
      match cs with
      | '/' :: rest => removeLineCommentsAux fuel (dropLineRest rest)
      | _ => c :: removeLineCommentsAux fuel cs
    else c :: removeLineCommentsAux fuel cs

def removeLineComments (cs : List Char) : List Char :=
  removeLineCommentsAux cs.length cs

/-- Find the nearest closing star-slash; none when absent. -/
def dropBlockRest : List Char → Option (List Char)
  | [] => none
  | '*' :: '/' :: cs => some cs
  | _ :: cs => dropBlockRest cs

/-- One regex pass removing slash-star block comments (DOTALL,
non-greedy).  When no closing marker exists in the rest of the text no
match can complete anywhere further, so the text is left unchanged. -/
def removeBlockCommentsAux : Nat → List Char → List Char
  | 0, cs => cs
  | _ + 1, [] => []
  | fuel + 1, c :: cs =>
    if c == '/' then
      match cs with
      | '*' :: rest =>
        match dropBlockRest rest with
        | some after => removeBlockCommentsAux fuel after
        | none => c :: cs
      | _ => c :: removeBlockCommentsAux fuel cs
    else c :: removeBlockCommentsAux fuel cs

def removeBlockComments (cs : List Char) : List Char :=
  removeBlockCommentsAux cs.length cs

/-- AIAPIDiscovery._clean_json_response (lines 234-245). -/
def clean_json_response (content : String) : String :=
  let s1 := subCommaClose '}' content.data
  let s2 := subCommaClose ']' s1
  let s3 := removeLineComments s2
  let s4 := removeBlockComments s3
  pyStrip (String.mk s4)

/-! ## A model of the standard JSON decoder (json.loads)

Values are objects, arrays, strings, numbers (kept as their lexeme:
the inputs of this development only use integer literals, and no
theorem depends on numeric semantics), booleans and null.  Object
fields are kept in source order, duplicates included; field access
(jget) takes the last occurrence, like a Python dict built by the
decoder.  Python extensions NaN and Infinity are not modelled; none of
the texts handled here use them. -/

inductive Json where
  | null
  | bool (b : Bool)
  | num (lexeme : String)
  | str (s : String)
  | arr (elems : List Json)
  | obj (fields : List (String × Json))

def isJsonWs (c : Char) : Bool :=
  c == ' ' || c == '\t' || c == '\n' || c == '\r'

def skipJsonWs (cs : List Char) : List Char := cs.dropWhile isJsonWs

def isDigitChar (c : Char) : Bool := 48 ≤ c.toNat && c.toNat ≤ 57

def hexVal (c : Char) : Option Nat :=
  if 48 ≤ c.toNat ∧ c.toNat ≤ 57 then some (c.toNat - 48)
  else if 97 ≤ c.toNat ∧ c.toNat ≤ 102 then some (c.toNat - 87)
  else if 65 ≤ c.toNat ∧ c.toNat ≤ 70 then some (c.toNat - 55)
  else none

/-- Body of a JSON string after the opening quote: returns the decoded
string and the rest after the closing quote.  Escapes are decoded as in
the JSON grammar; unescaped control characters are rejected (strict
decoder default). -/
def parseStringRest : Nat → List Char → Option (String × List Char)
  | 0, _ => none
  | _ + 1, [] => none
  | fuel + 1, c :: cs =>
    if c == '"' then some ("", cs)
    else if c == '\\' then
      match cs with
      | [] => none
      | e :: cs2 =>
        let esc : Option (Char × List Char) :=
          if e == '"' then some ('"', cs2)
          else if e == '\\' then some ('\\', cs2)
          else if e == '/' then some ('/', cs2)
          else if e == 'b' then some (Char.ofNat 8, cs2)
          else if e == 'f' then some (Char.ofNat 12, cs2)
          else if e == 'n' then some ('\n', cs2)
          else if e == 'r' then some ('\r', cs2)
          else if e == 't' then some ('\t', cs2)
          else if e == 'u' then
            match cs2 with
            | h1 :: h2 :: h3 :: h4 :: cs3 =>
              match hexVal h1, hexVal h2, hexVal h3, hexVal h4 with
              | some a, some b, some c2, some d =>
                some (Char.ofNat (((a * 16 + b) * 16 + c2) * 16 + d), cs3)
              | _, _, _, _ => none
            | _ => none
          else none
        match esc with
        | some (ch, rest) =>
          match parseStringRest fuel rest with
          | some (s, rest2) => some (String.mk (ch :: s.data), rest2)
          | none => none
        | none => none
    else if c.toNat < 32 then none
    else
      match parseStringRest fuel cs with
      | some (s, rest2) => some (String.mk (c :: s.data), rest2)
      | none => none

/-- A JSON number lexeme: optional minus, integer part (a lone zero or
a nonzero digit followed by digits), optional fraction, optional
exponent.  Trailing text that does not continue the grammar is left
unconsumed, as the reference decoder scanner does. -/
def parseNumber (cs : List Char) : Option (String × List Char) :=
  let signed := match cs with
    | '-' :: r => (true, r)
    | _ => (false, cs)
  match signed.2 with
  | [] => none
  | c :: rest =>
    if !(isDigitChar c) then none
    else
      let intDone :=
        if c == '0' then (['0'], rest)
        else
          let sp := signed.2.span isDigitChar
          (sp.1, sp.2)
      let fracDone :=
        match intDone.2 with
        | '.' :: d :: r2 =>
          if isDigitChar d then
            let sp := (d :: r2).span isDigitChar
            (intDone.1 ++ '.' :: sp.1, sp.2)
          else intDone
        | _ => intDone
      let expDone :=
        match fracDone.2 with
        | e :: r2 =>
          if e == 'e' || e == 'E' then
            let signedExp := match r2 with
              | '+' :: r3 => (['+'], r3)
              | '-' :: r3 => (['-'], r3)
              | _ => (([] : List Char), r2)
            match signedExp.2 with
            | d :: _ =>
              if isDigitChar d then
                let sp := signedExp.2.span isDigitChar
                (fracDone.1 ++ e :: signedExp.1 ++ sp.1, sp.2)
              else fracDone
            | _ => fracDone
          else fracDone
        | _ => fracDone
      some (String.mk ((if signed.1 then ['-'] else []) ++ expDone.1), expDone.2)

mutual

/-- One JSON value starting at the given characters (no leading
whitespace); returns the value and the unconsumed rest.  The fuel
decreases at every nested call and at least one character is consumed
between two fuel steps, so fuel length-plus-one never runs out. -/
def parseValue : Nat → List Char → Option (Json × List Char)
  | 0, _ => none
  | fuel + 1, cs =>
    match cs with
    | [] => none
    | c :: rest =>
      if c == '{' then
        let cs1 := skipJsonWs rest
        match cs1 with
        | '}' :: cs2 => some (Json.obj [], cs2)
        | _ => parseMembers fuel cs1 []
      else if c == '[' then
        let cs1 := skipJsonWs rest
        match cs1 with
        | ']' :: cs2 => some (Json.arr [], cs2)
        | _ => parseElems fuel cs1 []
      else if c == '"' then
        match parseStringRest (rest.length + 1) rest with
        | some (s, cs2) => some (Json.str s, cs2)
        | none => none
      else if c == 't' then
        match cs with
        | 't' :: 'r' :: 'u' :: 'e' :: cs2 => some (Json.bool true, cs2)
        | _ => none
      else if c == 'f' then
        match cs with
        | 'f' :: 'a' :: 'l' :: 's' :: 'e' :: cs2 => some (Json.bool false, cs2)
        | _ => none
      else if c == 'n' then
        match cs with
        | 'n' :: 'u' :: 'l' :: 'l' :: cs2 => some (Json.null, cs2)
        | _ => none
      else
        match parseNumber cs with
        | some (lex, cs2) => some (Json.num lex, cs2)
        | none => none

/-- Members of an object, starting at a key (whitespace skipped). -/
def parseMembers : Nat → List Char → List (String × Json) → Option (Json × List Char)
  | 0, _, _ => none
  | fuel + 1, cs, acc =>
    match cs with
    | '"' :: rest =>
      match parseStringRest (rest.length + 1) rest with
      | some (key, cs1) =>
        match skipJsonWs cs1 with
        | ':' :: cs3 =>
          match parseValue fuel (skipJsonWs cs3) with
          | some (v, cs4) =>
            match skipJsonWs cs4 with
            | ',' :: cs6 => parseMembers fuel (skipJsonWs cs6) (acc ++ [(key, v)])
            | '}' :: cs6 => some (Json.obj (acc ++ [(key, v)]), cs6)
            | _ => none
          | none => none
        | _ => none
      | none => none
    | _ => none

/-- Elements of an array, starting at a value (whitespace skipped). -/
def parseElems : Nat → List Char → List Json → Option (Json × List Char)
  | 0, _, _ => none
  | fuel + 1, cs, acc =>
    match parseValue fuel cs with
    | some (v, cs1) =>
      match skipJsonWs cs1 with
      | ',' :: cs3 => parseElems fuel (skipJsonWs cs3) (acc ++ [v])
      | ']' :: cs3 => some (Json.arr (acc ++ [v]), cs3)
      | _ => none
    | none => none

end

/-- json.loads: one top-level value, with surrounding whitespace, and
nothing after it. -/
def json_loads (s : String) : Option Json :=
  match parseValue (s.data.length + 1) (skipJsonWs s.data) with
  | some (v, rest) => if (skipJsonWs rest).isEmpty then some v else none
  | none => none

/-! ## JSON salvage (AIAPIDiscovery._salvage_json, lines 247-282) -/

/-- The regex search for an open-brace, anything, close-brace span:
the match, when it exists, runs from the first open brace to the last
close brace of the text, and needs a close brace somewhere after the
first open brace. -/
def firstBraceSpan (cs : List Char) : Option (List Char) :=
  match cs.dropWhile (fun c => !(c == '{')) with
  | [] => none
  | c :: rest =>
    let keep := (rest.reverse.dropWhile (fun d => !(d == '}'))).reverse
    if keep.isEmpty then none else some (c :: keep)

/-- Lines 266-270: count unbalanced braces and brackets and append the
missing closers, brackets first.  A negative count contributes nothing
(string repetition by a negative number is empty in Python). -/
def closeUnbalanced (s : String) : String :=
  let openBraces : Int := (pyCountChar s '{' : Int) - (pyCountChar s '}' : Int)
  let openBrackets : Int := (pyCountChar s '[' : Int) - (pyCountChar s ']' : Int)
  s ++ String.mk (List.replicate openBrackets.toNat ']')
    ++ String.mk (List.replicate openBraces.toNat '}')

/-- The candidate text tried for a prefix of i lines: join the first i
lines, close unbalanced brackets and braces, clean. -/
def salvageCandidate (lines : List String) (i : Nat) : String :=
  clean_json_response (closeUnbalanced (pyJoin "\n" (lines.take i)))

/-- The for loop of lines 262-277: i runs from the number of lines down
to 1, and the first candidate that decodes is returned. -/
def salvageLoop (lines : List String) : Nat → Option Json
  | 0 => none
  | i + 1 =>
    match json_loads (salvageCandidate lines (i + 1)) with
    | some v => some v
    | none => salvageLoop lines i

/-- AIAPIDiscovery._salvage_json (lines 247-282). -/
def salvage_json (content : String) : Option Json :=
  match firstBraceSpan content.data with
  | none => none
  | some span =>
    let lines := pySplit (String.mk span) "\n"
    salvageLoop lines lines.length

/-! ## The request round (AIAPIDiscovery._make_api_request, lines 148-221) -/

/-- The observable outcome of the HTTP transport for one round: either
a requests.RequestException (which raise_for_status also produces on a
non-2xx status), carrying its message, or the completion text extracted
from a successful response. -/
inductive TransportOutcome where
  | failure (msg : String)
  | success (content : String)

/-- _empty_result as a JSON object (the caller receives a dict). -/
def emptyResultJson (company_name error : String) : Json :=
  Json.obj [("company_name", Json.str company_name), ("has_api", Json.bool false),
    ("api_type", Json.str ""), ("base_url", Json.str ""),
    ("endpoints", Json.arr []), ("error", Json.str error)]

/-- dict.get: the value at a key of an object, taking the last
occurrence like a Python dict built from the decoded pairs; none on a
missing key or a non-object. -/
def jget (j : Json) (key : String) : Option Json :=
  match j with
  | Json.obj fields => (fields.reverse.find? (fun kv => kv.1 == key)).map (fun kv => kv.2)
  | _ => none

/-- Lines 192-195: strip a fenced code block marker around the JSON
body when present. -/
def extract_fenced (content : String) : String :=
  if pyContainsSub content "```json" then
    pyStrip ((pySplit ((pySplit content "```json").getD 1 "") "```").getD 0 "")
  else if pyContainsSub content "```" then
    pyStrip ((pySplit ((pySplit content "```").getD 1 "") "```").getD 0 "")
  else content

/-- AIAPIDiscovery._make_api_request (lines 148-221): on a transport
failure, the empty result carrying the error text; on a success, strip
the content, unwrap a code fence, clean, decode, and on a decode
failure try the salvage routine before falling back to the empty
result.  The exception message attached to the parse-error fallback is
an implementation detail of the decoder and is modelled as a fixed
text. -/
def make_api_request (company_name : String) (outcome : TransportOutcome) : Json :=
  match outcome with
  | TransportOutcome.failure e =>
    emptyResultJson company_name ("API request error: " ++ e)
  | TransportOutcome.success raw =>
    let content0 := pyStrip raw
    let content1 := extract_fenced content0
    let content2 := clean_json_response content1
    match json_loads content2 with
    | some result => result
    | none =>
      match salvage_json content2 with
      | some salvaged => salvaged
      | none => emptyResultJson company_name "JSON parse error"

/-- An endpoint record read out of a decoded JSON endpoint object.
The source indexes the method and path fields directly (lines 78-80)
and would raise on a malformed entry; the claims only exercise
well-formed entries and empty arrays, on which this reading agrees. -/
def epOfJson (j : Json) : Option Endpoint :=
  match jget j "method", jget j "path" with
  | some (Json.str m), some (Json.str p) =>
    some { method := m, path := p,
           description := match jget j "description" with
             | some (Json.str d) => d
             | _ => "" }
  | _, _ => none

/-- The endpoints list a loop round reads from the dictionary returned
by _make_api_request (the .get with default empty list at line 72). -/
def roundEndpoints (company_name : String) (outcome : TransportOutcome) : List Endpoint :=
  match jget (make_api_request company_name outcome) "endpoints" with
  | some (Json.arr l) => l.filterMap epOfJson
  | _ => []

/-! ## The heuristic extractor (api_discovery.py, lines 74-167)

The HTML document is modelled after parsing: the code and preformatted
blocks, the table rows (flattened across tables in document order,
with their cell texts), the headings and links, and the full page
text, each element carrying its own text and the text of its parent
element (used for descriptions).  The HTML parsing library itself is
out of scope of the specification; the regex scans over the extracted
texts are translated below character by character. -/

structure Element where
  text : String
  parentText : Option String
  deriving Repr, DecidableEq

structure HtmlDoc where
  codeBlocks : List Element
  tableRows : List (List String × Element)
  headingsLinks : List Element
  allText : String
  deriving Repr, DecidableEq

/-- The endpoint dictionary built by _create_endpoint_dict. -/
structure HEndpoint where
  method : String
  path : String
  description : String
  full_endpoint : String
  deriving Repr, DecidableEq

/-- APIDiscoveryAgent._create_endpoint_dict (lines 152-167). -/
def create_endpoint_dict (method path : String) (element : Option Element) : HEndpoint :=
  let description :=
    match element with
    | some el =>
      match el.parentText with
      | some p => pyTake (pyStrip p) 200
      | none => ""
    | none => ""
  { method := method, path := pyStrip path, description := description,
    full_endpoint := method ++ " " ++ pyStrip path }

/-- The membership-guarded append used by every strategy: the whole
record is compared, not the (method, path) key. -/
def addUnique (eps : List HEndpoint) (e : HEndpoint) : List HEndpoint :=
  if eps.contains e then eps else eps ++ [e]

/-- Case-insensitive match of a literal at the start of the input,
returning the matched characters in their original case. -/
def matchLiteralCI : List Char → List Char → Option (List Char × List Char)
  | [], cs => some ([], cs)
  | _ :: _, [] => none
  | p :: ps, c :: cs =>
    if pyLowerChar p == pyLowerChar c then
      match matchLiteralCI ps cs with
      | some (m, rest) => some (c :: m, rest)
      | none => none
    else none

/-- First alternative of a regex alternation that matches here. -/
def matchAltCI : List String → List Char → Option (List Char × List Char)
  | [], _ => none
  | a :: as, cs =>
    match matchLiteralCI a.data cs with
    | some r => some r
    | none => matchAltCI as cs

def httpMethodsAll : List String :=
  ["GET", "POST", "PUT", "DELETE", "PATCH", "HEAD", "OPTIONS"]

def httpMethods5 : List String := ["GET", "POST", "PUT", "DELETE", "PATCH"]

/-- The character class of path characters: word characters (ASCII
letters, digits, underscore), dash, slash, braces, colon. -/
def isPathChar (c : Char) : Bool :=
  (48 ≤ c.toNat && c.toNat ≤ 57) || (65 ≤ c.toNat && c.toNat ≤ 90) ||
  (97 ≤ c.toNat && c.toNat ≤ 122) || c == '_' || c == '-' || c == '/' ||
  c == '{' || c == '}' || c == ':'

/-- One match of the pattern method, whitespace, slash-path (the
findall pattern of strategies 1 and 2, IGNORECASE): the method as it
appears in the text, the path, and the rest of the input. -/
def matchMethodPath (alts : List String) (cs : List Char) :
    Option ((String × String) × List Char) :=
  match matchAltCI alts cs with
  | none => none
  | some (m, r1) =>
    match r1 with
    | c :: rest1 =>
      if isPyWhitespace c then
        match rest1.dropWhile isPyWhitespace with
        | '/' :: r3 =>
          let sp := r3.span isPathChar
          some ((String.mk m, String.mk ('/' :: sp.1)), sp.2)
        | _ => none
      else none
    | [] => none

/-- re.findall of the method-path pattern: leftmost non-overlapping
matches, the scan resuming after each match.  Fuel equals the input
length; a match always consumes several characters. -/
def findallMethodPathAux (alts : List String) : Nat → List Char → List (String × String)
  | 0, _ => []
  | _ + 1, [] => []
  | fuel + 1, c :: cs =>
    match matchMethodPath alts (c :: cs) with
    | some (mp, rest) => mp :: findallMethodPathAux alts fuel rest
    | none => findallMethodPathAux alts fuel cs

def findallMethodPath (alts : List String) (s : String) : List (String × String) :=
  findallMethodPathAux alts s.data.length s.data

/-- The path alternation of strategy 3: a path starting with the
literal /api, or /v followed by at least one digit, then path
characters (IGNORECASE). -/
def matchStrategy3Path (cs : List Char) : Option (List Char × List Char) :=
  match matchLiteralCI "/api".data cs with
  | some (m, rest) =>
    let sp := rest.span isPathChar
    some (m ++ sp.1, sp.2)
  | none =>
    match matchLiteralCI "/v".data cs with
    | some (m, rest) =>
      match rest.span isDigitChar with
      | ([], _) => none
      | (ds, rest2) =>
        let sp := rest2.span isPathChar
        some (m ++ ds ++ sp.1, sp.2)
    | none => none

/-- One match of the strategy 3 pattern: an optional method, optional
whitespace, then an /api or /vN path.  When the method branch fails to
complete, the regex falls back to the no-method branch at the same
start position (which can only succeed when the text here starts with
whitespace or a slash). -/
def matchStrategy3 (cs : List Char) : Option ((String × String) × List Char) :=
  let withMethod :=
    match matchAltCI httpMethods5 cs with
    | some (m, r1) =>
      match matchStrategy3Path (r1.dropWhile isPyWhitespace) with
      | some (p, rest) => some ((String.mk m, String.mk p), rest)
      | none => none
    | none => none
  match withMethod with
  | some r => some r
  | none =>
    match matchStrategy3Path (cs.dropWhile isPyWhitespace) with
    | some (p, rest) => some (("", String.mk p), rest)
    | none => none

def findallStrategy3Aux : Nat → List Char → List (String × String)
  | 0, _ => []
  | _ + 1, [] => []
  | fuel + 1, c :: cs =>
    match matchStrategy3 (c :: cs) with
    | some (mp, rest) => mp :: findallStrategy3Aux fuel rest
    | none => findallStrategy3Aux fuel cs

def findallStrategy3 (s : String) : List (String × String) :=
  findallStrategy3Aux s.data.length s.data

/-- One match of the strategy 4 pattern: a method, whitespace, then an
absolute http or https URL whose non-whitespace run contains /api
after at least one character following the scheme separator; the
captured URL extends to the end of the run (the trailing star is
greedy). -/
def matchStrategy4 (cs : List Char) : Option ((String × String) × List Char) :=
  match matchAltCI httpMethods5 cs with
  | none => none
  | some (m, r1) =>
    match r1 with
    | c :: rest1 =>
      if isPyWhitespace c then
        match matchLiteralCI "http".data (rest1.dropWhile isPyWhitespace) with
        | none => none
        | some (mh, r3) =>
          let withS :=
            match r3 with
            | s :: r4 => if pyLowerChar s == 's' then (mh ++ [s], r4) else (mh, r3)
            | [] => (mh, r3)
          match matchLiteralCI "://".data withS.2 with
          | none => none
          | some (ms, r5) =>
            let run := r5.span (fun d => !(isPyWhitespace d))
            if (run.1.tails.drop 1).any
                (fun t => Option.isSome (matchLiteralCI "/api".data t)) then
              some ((String.mk m,
                     String.mk (withS.1 ++ ms ++ run.1)), run.2)
            else none
      else none
    | [] => none

def findallStrategy4Aux : Nat → List Char → List (String × String)
  | 0, _ => []
  | _ + 1, [] => []
  | fuel + 1, c :: cs =>
    match matchStrategy4 (c :: cs) with
    | some (mp, rest) => mp :: findallStrategy4Aux fuel rest
    | none => findallStrategy4Aux fuel cs

def findallStrategy4 (s : String) : List (String × String) :=
  findallStrategy4Aux s.data.length s.data

/-- Skip the scheme separator of a URL. -/
def dropThroughSchemeSep : List Char → List Char
  | [] => []
  | ':' :: '/' :: '/' :: r => r
  | _ :: r => dropThroughSchemeSep r

/-- urlparse(url).path for the absolute URLs matched by strategy 4:
the characters from the first slash after the authority up to a query
or fragment marker (the rarely used semicolon parameters component is
not modelled; no input here carries one). -/
def urlparsePath (url : String) : String :=
  let afterAuth := (dropThroughSchemeSep url.data).dropWhile
    (fun c => !(c == '/' || c == '?' || c == '#'))
  match afterAuth with
  | '/' :: _ => String.mk (afterAuth.takeWhile (fun c => !(c == '?' || c == '#')))
  | _ => ""

/-- Strategy 1 (lines 93-102): scan code and preformatted blocks. -/
def strategy1 (doc : HtmlDoc) (eps : List HEndpoint) : List HEndpoint :=
  doc.codeBlocks.foldl (fun acc block =>
    (findallMethodPath httpMethodsAll block.text).foldl (fun acc2 mp =>
      addUnique acc2 (create_endpoint_dict (pyUpper mp.1) mp.2 (some block))) acc) eps

/-- Strategy 2 (lines 104-117): scan table rows with at least two
cells, on the space-joined stripped cell texts. -/
def strategy2 (doc : HtmlDoc) (eps : List HEndpoint) : List HEndpoint :=
  doc.tableRows.foldl (fun acc row =>
    if row.1.length ≥ 2 then
      (findallMethodPath httpMethods5 (pyJoin " " (row.1.map pyStrip))).foldl
        (fun acc2 mp =>
          addUnique acc2 (create_endpoint_dict (pyUpper mp.1) mp.2 (some row.2))) acc
    else acc) eps

/-- Strategy 3 (lines 119-129): scan headings and links, defaulting a
missing method to GET. -/
def strategy3 (doc : HtmlDoc) (eps : List HEndpoint) : List HEndpoint :=
  doc.headingsLinks.foldl (fun acc el =>
    (findallStrategy3 el.text).foldl (fun acc2 mp =>
      addUnique acc2 (create_endpoint_dict
        (pyUpper (if mp.1 = "" then "GET" else mp.1)) mp.2 (some el))) acc) eps

/-- Strategy 4 (lines 131-139): scan the full page text for absolute
URLs, keeping the path component, with no element for context. -/
def strategy4 (doc : HtmlDoc) (eps : List HEndpoint) : List HEndpoint :=
  (findallStrategy4 doc.allText).foldl (fun acc mp =>
    addUnique acc (create_endpoint_dict (pyUpper mp.1) (urlparsePath mp.2) none)) eps

/-- The body of extract_endpoints after a successful fetch and parse:
the four strategies applied in order to the growing list. -/
def extract_endpoints_body (doc : HtmlDoc) : List HEndpoint :=
  strategy4 doc (strategy3 doc (strategy2 doc (strategy1 doc [])))

/-- APIDiscoveryAgent.extract_endpoints (lines 74-150): the fetch
argument models the HTTP get, raise_for_status and the HTML parse; any
exception in it is caught by the try block and yields the empty
list. -/
def extract_endpoints (fetch : String → Except String HtmlDoc) (url : String) :
    List HEndpoint :=
  match fetch url with
  | Except.error _ => []
  | Except.ok doc => extract_endpoints_body doc

/-! ## Documentation URL discovery (api_discovery.py, lines 26-72) -/

/-- The name-templated candidate URLs, in probe order (lines 47-55). -/
def common_domains (company_name : String) : List String :=
  let n := pyRemoveSpaces (pyLower company_name)
  ["https://api." ++ n ++ ".com",
   "https://developer." ++ n ++ ".com",
   "https://docs." ++ n ++ ".com",
   "https://" ++ n ++ ".com/api",
   "https://" ++ n ++ ".com/docs",
   "https://" ++ n ++ ".com/developers",
   "https://www." ++ n ++ ".com/api"]

def api_keywords : List String :=
  ["api", "endpoint", "rest", "graphql", "documentation"]

/-- The acceptance test at line 64: some keyword occurs in the
lower-cased visible text of the page. -/
def hasApiKeyword (text : String) : Bool :=
  api_keywords.any (fun kw => pyContainsSub (pyLower text) kw)

/-- The probe loop of lines 57-69.  The transport argument returns the
status code and the visible text of the page (the get_text of the
parsed body), or none when the request or the parse raises; an
exception or a failed test moves on to the next candidate. -/
def probeList (http : String → Option (Nat × String)) : List String → Option String
  | [] => none
  | url :: rest =>
    match http url with
    | some (status, text) =>
      if status == 200 && hasApiKeyword text then some url
      else probeList http rest
    | none => probeList http rest

/-- APIDiscoveryAgent.search_for_api_documentation (lines 26-72). -/
def search_for_api_documentation (http : String → Option (Nat × String))
    (company_name : String) : Option String :=
  probeList http (common_domains company_name)

/-! ## Spreadsheet exporters

Both exporters are modelled as the list of data rows written below the
fixed title, metadata and header rows; styling, column widths, frozen
panes, autofilter and the save to disk carry no endpoint data and are
out of scope.  String comparison for the sort key is the code point
comparison Python uses on strings. -/

/-- Code point comparison of character lists (Python string less
than). -/
def listLtb : List Char → List Char → Bool
  | [], [] => false
  | [], _ :: _ => true
  | _ :: _, [] => false
  | a :: as, b :: bs =>
    if a.toNat < b.toNat then true
    else if b.toNat < a.toNat then false
    else listLtb as bs

def strLtb (a b : String) : Bool := listLtb a.data b.data

/-- The sort key of src/src/excel_exporter.py line 113: ascending by
the tuple (path, method). -/
def endpointRowLe (a b : Endpoint) : Bool :=
  if strLtb a.path b.path then true
  else if strLtb b.path a.path then false
  else !(strLtb b.method a.method)

/-- The same tuple order read off a written row (method, path,
description). -/
def rowKeyLe (r s : String × String × String) : Bool :=
  if strLtb r.2.1 s.2.1 then true
  else if strLtb s.2.1 r.2.1 then false
  else !(strLtb s.1 r.1)

/-- The data rows of ExcelExporter.create_spreadsheet in
src/src/excel_exporter.py (lines 110-120): one row per endpoint,
sorted by path then method with the stable reference sort, with cells
method, path, description. -/
def ai_create_spreadsheet_rows (endpoints : List Endpoint) :
    List (String × String × String) :=
  (endpoints.mergeSort endpointRowLe).map (fun e => (e.method, e.path, e.description))

/-- The data rows of ExcelExporter.create_spreadsheet in
excel_exporter.py (lines 79-94): one row per endpoint, in input order,
with cells method, path, full_endpoint, description and an empty notes
cell. -/
def heur_create_spreadsheet_rows (endpoints : List HEndpoint) :
    List (String × String × String × String × String) :=
  endpoints.map (fun e => (e.method, e.path, e.full_endpoint, e.description, ""))

/-- A candidate URL qualifies when its probe returns status 200 and
its page text carries one of the keywords. -/
def urlQualifies (http : String → Option (Nat × String)) (url : String) : Prop :=
  ∃ text, http url = some (200, text) ∧ hasApiKeyword text = true

/-- The mocked transport of the URL probing scenario: HTTP 200 with
body REST API Endpoints only for the examplecorp api subdomain. -/
def mockHttp : String → Option (Nat × String) :=
  fun url =>
    if url = "https://api.examplecorp.com" then some (200, "REST API Endpoints")
    else none

/-! ## THEOREMS -/

/-! ### Helper lemmas about the AI loop -/

theorem uniqueNew_nil (allEndpoints : List Endpoint) : uniqueNew [] allEndpoints = [] := rfl

theorem mem_uniqueNew {newEndpoints allEndpoints : List Endpoint} {ep : Endpoint}
    (h : ep ∈ uniqueNew newEndpoints allEndpoints) :
    ep ∈ newEndpoints ∧ epKey ep ∉ allEndpoints.map epKey := by
  unfold uniqueNew at h
  have h' := List.mem_filter.mp h
  refine ⟨h'.1, ?_⟩
  intro hmem
  have hc : (allEndpoints.map epKey).contains (epKey ep) = true := by
    simp [List.contains, hmem]
  rw [hc] at h'
  simp at h'

theorem searchLoopAux_stop (f : Nat → List Endpoint → List Endpoint)
    (fuel iteration : Nat) (allEndpoints : List Endpoint) (calls : Nat)
    (hlt : iteration < maxIterations)
    (h : uniqueNew (f iteration allEndpoints) allEndpoints = []) :
    searchLoopAux f (fuel + 1) iteration allEndpoints calls = (allEndpoints, calls + 1) := by
  unfold searchLoopAux
  rw [if_pos hlt]
  by_cases hnew : (f iteration allEndpoints).isEmpty
  · simp [hnew]
  · simp only [hnew, Bool.false_eq_true, if_false, h]
    simp

theorem searchLoopAux_calls_le (f : Nat → List Endpoint → List Endpoint)
    (fuel : Nat) : ∀ (iteration : Nat) (allEndpoints : List Endpoint) (calls : Nat),
    (searchLoopAux f fuel iteration allEndpoints calls).2 ≤ calls + (maxIterations - iteration) := by
  induction fuel with
  | zero => intro iteration allEndpoints calls; simp [searchLoopAux]
  | succ fuel ih =>
    intro iteration allEndpoints calls
    unfold searchLoopAux
    by_cases hlt : iteration < maxIterations
    · rw [if_pos hlt]
      by_cases hnew : (f iteration allEndpoints).isEmpty
      · simp only [hnew, if_true]
        omega
      · simp only [hnew, Bool.false_eq_true, if_false]
        by_cases hu : (uniqueNew (f iteration allEndpoints) allEndpoints).isEmpty
        · simp only [hu, if_true]
          omega
        · simp only [hu, Bool.false_eq_true, if_false]
          have := ih (iteration + 1) (allEndpoints ++ uniqueNew (f iteration allEndpoints) allEndpoints) (calls + 1)
          omega
    · rw [if_neg hlt]
      simp

theorem searchLoopAux_calls_eq (f : Nat → List Endpoint → List Endpoint)
    (hf : ∀ i allEndpoints, uniqueNew (f i allEndpoints) allEndpoints ≠ [])
    (fuel : Nat) : ∀ (iteration : Nat) (allEndpoints : List Endpoint) (calls : Nat),
    maxIterations - iteration ≤ fuel →
    (searchLoopAux f fuel iteration allEndpoints calls).2 = calls + (maxIterations - iteration) := by
  induction fuel with
  | zero =>
    intro iteration allEndpoints calls hfuel
    simp [searchLoopAux]
    omega
  | succ fuel ih =>
    intro iteration allEndpoints calls hfuel
    unfold searchLoopAux
    by_cases hlt : iteration < maxIterations
    · rw [if_pos hlt]
      have hne : f iteration allEndpoints ≠ [] := by
        intro hnil
        exact hf iteration allEndpoints (by rw [hnil]; rfl)
      have hnew : (f iteration allEndpoints).isEmpty = false := by
        simpa [List.isEmpty_iff] using hne
      simp only [hnew, Bool.false_eq_true, if_false]
      have hu : (uniqueNew (f iteration allEndpoints) allEndpoints).isEmpty = false := by
        simpa [List.isEmpty_iff] using hf iteration allEndpoints
      simp only [hu, Bool.false_eq_true, if_false]
      have := ih (iteration + 1) (allEndpoints ++ uniqueNew (f iteration allEndpoints) allEndpoints) (calls + 1) (by omega)
      omega
    · rw [if_neg hlt]
      simp
      omega

theorem search_company_api_endpoints_base (company_name : String) (initResult : AIResult)
    (f : Nat → List Endpoint → List Endpoint) (h : initResult.has_api = true) :
    search_company_api company_name initResult f =
      let out := searchLoopAux f maxIterations 1 initResult.endpoints 0
      ({ (search_company_api company_name initResult f).1 with endpoints := out.1 },
        1 + out.2) := by
  unfold search_company_api
  simp only [h]
  by_cases h1 : initResult.base_url = "" <;>
    by_cases h2 : initResult.api_type = "" <;>
      by_cases h3 : initResult.company_name = "" <;>
        simp [h1, h2, h3]

theorem searchLoopAux_filter_key (f : Nat → List Endpoint → List Endpoint)
    (k : String) (e : Endpoint) (fuel : Nat) :
    ∀ (iteration : Nat) (allEndpoints : List Endpoint) (calls : Nat),
    allEndpoints.filter (fun ep => epKey ep == k) = [e] →
    (searchLoopAux f fuel iteration allEndpoints calls).1.filter (fun ep => epKey ep == k) = [e] := by
  induction fuel with
  | zero => intro iteration allEndpoints calls h; simpa [searchLoopAux] using h
  | succ fuel ih =>
    intro iteration allEndpoints calls h
    have hmemE : e ∈ allEndpoints ∧ (epKey e == k) = true := by
      have : e ∈ allEndpoints.filter (fun ep => epKey ep == k) := by rw [h]; simp
      exact List.mem_filter.mp this
    unfold searchLoopAux
    by_cases hlt : iteration < maxIterations
    · rw [if_pos hlt]
      by_cases hnew : (f iteration allEndpoints).isEmpty
      · simpa [hnew] using h
      · simp only [hnew, Bool.false_eq_true, if_false]
        by_cases hu : (uniqueNew (f iteration allEndpoints) allEndpoints).isEmpty
        · simpa [hu] using h
        · simp only [hu, Bool.false_eq_true, if_false]
          apply ih
          rw [List.filter_append, h]
          have hufilter : (uniqueNew (f iteration allEndpoints) allEndpoints).filter
              (fun ep => epKey ep == k) = [] := by
            rw [List.filter_eq_nil_iff]
            intro ep hep
            have hnot := (mem_uniqueNew hep).2
            intro hbeq
            apply hnot
            have hkey : epKey ep = k := by simpa using hbeq
            have hkeyE : epKey e = k := by simpa using hmemE.2
            rw [hkey, ← hkeyE]
            exact List.mem_map.mpr ⟨e, hmemE.1, rfl⟩
          rw [hufilter]
          simp
    · rw [if_neg hlt]
      simpa using h

/-! ### C1: round cap of the AI loop -/

/-- C1: search_company_api issues at most 5 request rounds in total in
every run; and against a backend whose every additional round yields at
least one new unique endpoint, exactly 5 rounds (1 initial fetch plus 4
additional fetches) are issued, never a 6th. -/
theorem ai_loop_round_cap (company_name : String) (initResult : AIResult)
    (f : Nat → List Endpoint → List Endpoint) :
    (search_company_api company_name initResult f).2 ≤ 5 ∧
    (initResult.has_api = true →
      (∀ i allEndpoints, uniqueNew (f i allEndpoints) allEndpoints ≠ []) →
      (search_company_api company_name initResult f).2 = 5) := by
  constructor
  · by_cases h : initResult.has_api = true
    · rw [search_company_api_endpoints_base company_name initResult f h]
      simp only []
      have hle := searchLoopAux_calls_le f maxIterations 1 initResult.endpoints 0
      simp only [maxIterations] at hle ⊢
      omega
    · unfold search_company_api
      have h' : initResult.has_api = false := by
        cases hb : initResult.has_api
        · rfl
        · exact absurd hb h
      simp [h']
  · intro hapi hf
    rw [search_company_api_endpoints_base company_name initResult f hapi]
    simp only []
    have := searchLoopAux_calls_eq f hf maxIterations 1 initResult.endpoints 0 (by simp [maxIterations])
    simp only [maxIterations] at this ⊢
    omega

theorem uniqueNew_singleton_of_longer (e : Endpoint) (allEndpoints : List Endpoint)
    (hlen : ∀ k ∈ allEndpoints.map epKey, k.length < (epKey e).length) :
    uniqueNew [e] allEndpoints ≠ [] := by
  intro h
  unfold uniqueNew at h
  simp only [List.filter_eq_nil_iff, List.mem_singleton, forall_eq] at h
  have hcontains : (allEndpoints.map epKey).contains (epKey e) = true := by
    simpa using h
  obtain ⟨k, hk, hbeq⟩ := List.contains_iff_exists_mem_beq.mp hcontains
  have hkeq : epKey e = k := eq_of_beq hbeq
  have hlt := hlen k hk
  rw [hkeq] at hlt
  omega

theorem capWitnessF_always_new :
    ∀ i allEndpoints, uniqueNew (capWitnessF i allEndpoints) allEndpoints ≠ [] := by
  intro i allEndpoints
  apply uniqueNew_singleton_of_longer
  intro k hk
  obtain ⟨ep, hep, hkeyeq⟩ := List.mem_map.mp hk
  have hlenle : (epKey ep).length ≤ (allEndpoints.map (fun e => (epKey e).length)).sum := by
    apply List.single_le_sum (by simp)
    exact List.mem_map.mpr ⟨ep, hep, rfl⟩
  have hlenkey : (epKey (⟨"GET", String.mk (List.replicate
        ((allEndpoints.map (fun ep => (epKey ep).length)).sum + 1) 'x'),
      "stub"⟩ : Endpoint)).length =
      (allEndpoints.map (fun ep => (epKey ep).length)).sum + 5 := by
    have h3 : ("GET" : String).length = 3 := rfl
    have h1 : ((":" : String).length) = 1 := rfl
    have hx : (String.mk (List.replicate
        ((allEndpoints.map (fun ep => (epKey ep).length)).sum + 1) 'x')).length =
        (allEndpoints.map (fun ep => (epKey ep).length)).sum + 1 := by
      show (List.replicate _ 'x').length = _
      rw [List.length_replicate]
    show ("GET" ++ ":" ++ String.mk (List.replicate
        ((allEndpoints.map (fun ep => (epKey ep).length)).sum + 1) 'x')).length =
      (allEndpoints.map (fun ep => (epKey ep).length)).sum + 5
    rw [String.length_append, String.length_append, h3, h1, hx]
    omega
  rw [← hkeyeq]
  calc (epKey ep).length ≤ _ := hlenle
    _ < _ := by rw [hlenkey]; omega

/-- Witness for C1: against the always-one-new-endpoint stub backend,
both conjuncts of the round cap theorem hold at a concrete run. -/
theorem ai_loop_round_cap_witness :
    (search_company_api "Acme" ⟨"Acme", true, "REST", "https://api.acme.test", [], ""⟩
      capWitnessF).2 ≤ 5 ∧
    (search_company_api "Acme" ⟨"Acme", true, "REST", "https://api.acme.test", [], ""⟩
      capWitnessF).2 = 5 :=
  ⟨(ai_loop_round_cap "Acme" _ capWitnessF).1,
   (ai_loop_round_cap "Acme" _ capWitnessF).2 rfl capWitnessF_always_new⟩

/-! ### C2: early termination of the AI loop -/

/-- C2: when an additional round returns zero endpoints or only
endpoints whose keys are already accumulated (uniqueNew gives the empty
list, which covers both cases), the loop stops right after that round,
issuing exactly one request for it and none after; and with a stub
backend returning zero endpoints on round 2, the whole search performs
exactly 2 rounds. -/
theorem ai_loop_early_termination :
    (∀ (f : Nat → List Endpoint → List Endpoint) (fuel iteration : Nat)
       (allEndpoints : List Endpoint) (calls : Nat),
       iteration < maxIterations →
       uniqueNew (f iteration allEndpoints) allEndpoints = [] →
       searchLoopAux f (fuel + 1) iteration allEndpoints calls = (allEndpoints, calls + 1)) ∧
    (∀ (company_name : String) (initResult : AIResult)
       (f : Nat → List Endpoint → List Endpoint),
       initResult.has_api = true → f 1 initResult.endpoints = [] →
       (search_company_api company_name initResult f).2 = 2) := by
  constructor
  · exact fun f fuel i allEndpoints calls hlt h =>
      searchLoopAux_stop f fuel i allEndpoints calls hlt h
  · intro company_name initResult f hapi hf
    rw [search_company_api_endpoints_base company_name initResult f hapi]
    simp only []
    have hstop : searchLoopAux f maxIterations 1 initResult.endpoints 0 =
        (initResult.endpoints, 1) := by
      have := searchLoopAux_stop f 4 1 initResult.endpoints 0 (by simp [maxIterations])
        (by rw [hf]; rfl)
      simpa [maxIterations] using this
    rw [hstop]
    rfl

/-- Witness for C2: a concrete loop state at which a no-new-endpoints
round stops the loop after one request, and a concrete two-round run. -/
theorem ai_loop_early_termination_witness :
    searchLoopAux (fun _ _ => []) (0 + 1) 1
      [⟨"GET", "/users", "list users"⟩] 0 = ([⟨"GET", "/users", "list users"⟩], 0 + 1) ∧
    (search_company_api "Acme" ⟨"Acme", true, "REST", "https://api.acme.test",
      [⟨"GET", "/users", "list users"⟩], ""⟩ (fun _ _ => [])).2 = 2 :=
  ⟨ai_loop_early_termination.1 (fun _ _ => []) 0 1 [⟨"GET", "/users", "list users"⟩] 0
      (by decide) rfl,
   ai_loop_early_termination.2 "Acme" _ (fun _ _ => []) rfl rfl⟩

/-! ### C3: first-wins deduplication across rounds -/

/-- C3: if the accumulated initial list carries exactly one endpoint
with a given key, then after the whole discovery loop the merged list
still carries exactly that endpoint for the key: later rounds that
repeat the key are filtered out, so the first description is retained
and exactly one entry per repeated key remains. -/
theorem ai_loop_first_wins (company_name : String) (initResult : AIResult)
    (f : Nat → List Endpoint → List Endpoint) (k : String) (e : Endpoint)
    (hapi : initResult.has_api = true)
    (h : initResult.endpoints.filter (fun ep => epKey ep == k) = [e]) :
    ((search_company_api company_name initResult f).1.endpoints.filter
      (fun ep => epKey ep == k)) = [e] := by
  rw [search_company_api_endpoints_base company_name initResult f hapi]
  simp only []
  exact searchLoopAux_filter_key f k e maxIterations 1 initResult.endpoints 0 h

/-- Witness for C3: round 2 repeats GET /users with a different
description; the merged list keeps exactly the round 1 entry. -/
theorem ai_loop_first_wins_witness :
    ((search_company_api "Acme" ⟨"Acme", true, "REST", "https://api.acme.test",
        [⟨"GET", "/users", "first description"⟩], ""⟩
        (fun _ _ => [⟨"GET", "/users", "second description"⟩])).1.endpoints.filter
      (fun ep => epKey ep == "GET:/users")) = [⟨"GET", "/users", "first description"⟩] :=
  ai_loop_first_wins "Acme" _ _ "GET:/users" ⟨"GET", "/users", "first description"⟩
    rfl (by decide)

/-! ### Helper lemmas for C5 and C6 -/

theorem search_company_api_spec (company_name : String) (initResult : AIResult)
    (f : Nat → List Endpoint → List Endpoint) (h : initResult.has_api = true) :
    (search_company_api company_name initResult f).1.has_api = true ∧
    (search_company_api company_name initResult f).1.endpoints =
      (searchLoopAux f maxIterations 1 initResult.endpoints 0).1 ∧
    (search_company_api company_name initResult f).2 =
      1 + (searchLoopAux f maxIterations 1 initResult.endpoints 0).2 := by
  unfold search_company_api
  simp only [h]
  by_cases h1 : initResult.base_url = "" <;>
    by_cases h2 : initResult.api_type = "" <;>
      by_cases h3 : initResult.company_name = "" <;>
        simp [h1, h2, h3, h]

theorem salvageLoop_none_iff (lines : List String) :
    ∀ n, salvageLoop lines n = none ↔
      ∀ i, 1 ≤ i → i ≤ n → json_loads (salvageCandidate lines i) = none := by
  intro n
  induction n with
  | zero =>
    simp only [salvageLoop]
    constructor
    · intro _ i h1 h2
      omega
    · intro _
      trivial
  | succ n ih =>
    simp only [salvageLoop]
    cases h : json_loads (salvageCandidate lines (n + 1)) with
    | some v =>
      constructor
      · intro hcontra
        simp at hcontra
      · intro hall
        have := hall (n + 1) (by omega) (by omega)
        rw [h] at this
        cases this
    | none =>
      rw [ih]
      constructor
      · intro hall i h1 h2
        by_cases hi : i ≤ n
        · exact hall i h1 hi
        · have heq : i = n + 1 := by omega
          rw [heq]
          exact h
      · intro hall i h1 h2
        exact hall i h1 (by omega)

theorem salvageLoop_some (lines : List String) :
    ∀ n v, salvageLoop lines n = some v →
      ∃ i, 1 ≤ i ∧ i ≤ n ∧ json_loads (salvageCandidate lines i) = some v ∧
        ∀ j, i < j → j ≤ n → json_loads (salvageCandidate lines j) = none := by
  intro n
  induction n with
  | zero =>
    intro v h
    simp [salvageLoop] at h
  | succ n ih =>
    intro v h
    simp only [salvageLoop] at h
    cases hj : json_loads (salvageCandidate lines (n + 1)) with
    | some w =>
      rw [hj] at h
      simp at h
      refine ⟨n + 1, by omega, le_refl _, ?_, ?_⟩
      · rw [hj, h]
      · intro j hj1 hj2
        omega
    | none =>
      rw [hj] at h
      obtain ⟨i, h1, h2, h3, h4⟩ := ih v h
      refine ⟨i, h1, by omega, h3, ?_⟩
      intro j hlt hle
      by_cases hjn : j ≤ n
      · exact h4 j hlt hjn
      · have heq : j = n + 1 := by omega
        rw [heq]
        exact hj

/-! ### C5: JSON salvage -/

/-- C5 counterexample: a valid JSON object text on one line whose only
close brace falls inside the truncated 10 characters.  The salvage
routine needs a close brace after the first open brace to find a span,
so it returns nothing instead of a decoded object. -/
theorem salvage_truncated_flat_counterexample :
    json_loads "\x7b\"aa\": 1234567890\x7d" =
      some (Json.obj [("aa", Json.num "1234567890")]) ∧
    pyTake "\x7b\"aa\": 1234567890\x7d" ("\x7b\"aa\": 1234567890\x7d".length - 10) =
      "\x7b\"aa\": 1" ∧
    salvage_json "\x7b\"aa\": 1" = none :=
  ⟨rfl, rfl, rfl⟩

/-- C5 amended: the salvage routine returns the first candidate that
decodes, where the candidates are the shrinking line prefixes of the
first-open-brace-to-last-close-brace span, longest first, each with
unbalanced brackets and braces closed and the cleanup pass applied; it
returns nothing exactly when no candidate decodes, and in particular
when the body holds no close brace after its first open brace.  A
multi-line object truncated by 10 characters is recovered when one of
these candidates decodes (witnessed below on a pretty-printed object,
where the decoded object keeps only the leading fields), but not for
every truncated valid object text. -/
theorem salvage_first_decoding_candidate :
    (∀ content : String, firstBraceSpan content.data = none → salvage_json content = none) ∧
    (∀ (content : String) (span : List Char), firstBraceSpan content.data = some span →
      ((salvage_json content = none ↔
         ∀ i, 1 ≤ i → i ≤ (pySplit (String.mk span) "\n").length →
           json_loads (salvageCandidate (pySplit (String.mk span) "\n") i) = none) ∧
       (∀ v, salvage_json content = some v →
         ∃ i, 1 ≤ i ∧ i ≤ (pySplit (String.mk span) "\n").length ∧
           json_loads (salvageCandidate (pySplit (String.mk span) "\n") i) = some v ∧
           ∀ j, i < j → j ≤ (pySplit (String.mk span) "\n").length →
             json_loads (salvageCandidate (pySplit (String.mk span) "\n") j) = none))) ∧
    salvage_json (pyTake "\x7b\n \"a\": \x7b\"x\": 1\x7d,\n \"b\": 2,\n \"c\": 3333\n\x7d"
        ("\x7b\n \"a\": \x7b\"x\": 1\x7d,\n \"b\": 2,\n \"c\": 3333\n\x7d".length - 10)) =
      some (Json.obj [("a", Json.obj [("x", Json.num "1")])]) := by
  refine ⟨?_, ?_, rfl⟩
  · intro content h
    unfold salvage_json
    rw [h]
  · intro content span h
    constructor
    · unfold salvage_json
      rw [h]
      exact salvageLoop_none_iff (pySplit (String.mk span) "\n")
        (pySplit (String.mk span) "\n").length
    · intro v hv
      unfold salvage_json at hv
      rw [h] at hv
      exact salvageLoop_some (pySplit (String.mk span) "\n")
        (pySplit (String.mk span) "\n").length v hv

/-- Witness for the amended C5: a body with no close brace after its
first open brace makes the salvage routine return nothing. -/
theorem salvage_first_decoding_candidate_witness :
    salvage_json "\x7b not closed" = none :=
  salvage_first_decoding_candidate.1 "\x7b not closed" rfl

/-! ### C6: transport failures -/

/-- C6: a transport failure during a round is converted by
make_api_request into the empty result carrying the error text, with
has_api false and an empty endpoints list; such a round contributes
zero endpoints, so in an additional round it is treated as no new
endpoints: the search stops after it with one request issued for it
and none after (no retry), and the returned result keeps the
endpoints accumulated in earlier rounds with has_api still true. -/
theorem transport_failure_handling (company_name e : String) (initResult : AIResult)
    (f : Nat → List Endpoint → List Endpoint) :
    (jget (make_api_request company_name (TransportOutcome.failure e)) "has_api" =
        some (Json.bool false) ∧
      jget (make_api_request company_name (TransportOutcome.failure e)) "endpoints" =
        some (Json.arr []) ∧
      jget (make_api_request company_name (TransportOutcome.failure e)) "error" =
        some (Json.str ("API request error: " ++ e))) ∧
    roundEndpoints company_name (TransportOutcome.failure e) = [] ∧
    (initResult.has_api = true →
      f 1 initResult.endpoints = roundEndpoints company_name (TransportOutcome.failure e) →
      (search_company_api company_name initResult f).1.endpoints = initResult.endpoints ∧
      (search_company_api company_name initResult f).1.has_api = true ∧
      (search_company_api company_name initResult f).2 = 2) := by
  refine ⟨⟨rfl, rfl, rfl⟩, rfl, ?_⟩
  intro hapi hf
  obtain ⟨hhas, hend, hcalls⟩ := search_company_api_spec company_name initResult f hapi
  have hf0 : f 1 initResult.endpoints = [] := hf
  have hstop : searchLoopAux f maxIterations 1 initResult.endpoints 0 =
      (initResult.endpoints, 1) := by
    have := searchLoopAux_stop f 4 1 initResult.endpoints 0 (by simp [maxIterations])
      (by rw [hf0]; rfl)
    simpa [maxIterations] using this
  refine ⟨?_, hhas, ?_⟩
  · rw [hend, hstop]
  · rw [hcalls, hstop]
    rfl

/-- Witness for C6: a concrete failing round 2 keeps the round 1
endpoint, keeps has_api, and the run stops at 2 rounds. -/
theorem transport_failure_handling_witness :
    roundEndpoints "Acme" (TransportOutcome.failure "boom") = [] ∧
    (search_company_api "Acme" ⟨"Acme", true, "REST", "https://api.acme.test",
      [⟨"GET", "/orders", "list orders"⟩], ""⟩ (fun _ _ => [])).1.endpoints =
      [⟨"GET", "/orders", "list orders"⟩] ∧
    (search_company_api "Acme" ⟨"Acme", true, "REST", "https://api.acme.test",
      [⟨"GET", "/orders", "list orders"⟩], ""⟩ (fun _ _ => [])).2 = 2 :=
  ⟨(transport_failure_handling "Acme" "boom"
      ⟨"Acme", true, "REST", "https://api.acme.test",
        [⟨"GET", "/orders", "list orders"⟩], ""⟩ (fun _ _ => [])).2.1,
   ((transport_failure_handling "Acme" "boom"
      ⟨"Acme", true, "REST", "https://api.acme.test",
        [⟨"GET", "/orders", "list orders"⟩], ""⟩ (fun _ _ => [])).2.2 rfl rfl).1,
   ((transport_failure_handling "Acme" "boom"
      ⟨"Acme", true, "REST", "https://api.acme.test",
        [⟨"GET", "/orders", "list orders"⟩], ""⟩ (fun _ _ => [])).2.2 rfl rfl).2.2⟩

/-! ### C10: the cleanup pass on valid JSON -/

/-- C10: the pre-decode cleanup pass is applied to every AI response,
and the claim that it preserves valid comment-free JSON fails on the
code: the line-comment removal strips from the double slash of a URL
string value to the end of the line, so a valid object with a base_url
value stops decoding at all.  Evaluated at the failing input. -/
theorem clean_json_corrupts_url :
    json_loads "\x7b\"base_url\": \"https://api.example.com/v1\"\x7d" =
      some (Json.obj [("base_url", Json.str "https://api.example.com/v1")]) ∧
    clean_json_response "\x7b\"base_url\": \"https://api.example.com/v1\"\x7d" =
      "\x7b\"base_url\": \"https:" ∧
    json_loads (clean_json_response "\x7b\"base_url\": \"https://api.example.com/v1\"\x7d") =
      none :=
  ⟨rfl, rfl, rfl⟩

/-! ### C7: the heuristic extractor never raises -/

/-- C7: extract_endpoints is total and never propagates a failure:
every network or parse error caught by its try block yields the empty
list, and a successful fetch yields the (possibly empty) union of the
four strategies. -/
theorem extract_endpoints_total (fetch : String → Except String HtmlDoc) (url : String) :
    (∀ e, fetch url = Except.error e → extract_endpoints fetch url = []) ∧
    (∀ doc, fetch url = Except.ok doc →
      extract_endpoints fetch url = extract_endpoints_body doc) := by
  constructor
  · intro e h
    unfold extract_endpoints
    rw [h]
  · intro doc h
    unfold extract_endpoints
    rw [h]

/-- Witness for C7: a timed-out fetch yields the empty list; a
successful fetch of an empty page yields the strategy union. -/
theorem extract_endpoints_total_witness :
    extract_endpoints (fun _ => Except.error "connection timed out")
      "https://docs.acme.test" = [] ∧
    extract_endpoints (fun _ => Except.ok ⟨[], [], [], ""⟩)
      "https://docs.acme.test" = extract_endpoints_body ⟨[], [], [], ""⟩ :=
  ⟨(extract_endpoints_total (fun _ => Except.error "connection timed out")
      "https://docs.acme.test").1 "connection timed out" rfl,
   (extract_endpoints_total (fun _ => Except.ok ⟨[], [], [], ""⟩)
      "https://docs.acme.test").2 ⟨[], [], [], ""⟩ rfl⟩

/-! ### C4: what deduplication actually identifies -/

theorem addUnique_nodup (eps : List HEndpoint) (e : HEndpoint) (h : eps.Nodup) :
    (addUnique eps e).Nodup := by
  unfold addUnique
  by_cases hm : e ∈ eps
  · simp [List.contains, hm, h]
  · simp [List.contains, hm, List.nodup_append, h]

theorem foldl_preserve_nodup {β : Type} (g : List HEndpoint → β → List HEndpoint)
    (hg : ∀ acc x, acc.Nodup → (g acc x).Nodup) :
    ∀ (xs : List β) (acc : List HEndpoint), acc.Nodup → (xs.foldl g acc).Nodup := by
  intro xs
  induction xs with
  | nil => intro acc h; simpa using h
  | cons x xs ih =>
    intro acc h
    simp only [List.foldl_cons]
    exact ih (g acc x) (hg acc x h)

theorem foldl_addUnique_nodup {β : Type} (f : β → HEndpoint) (xs : List β)
    (acc : List HEndpoint) (h : acc.Nodup) :
    (xs.foldl (fun a x => addUnique a (f x)) acc).Nodup :=
  foldl_preserve_nodup (fun a x => addUnique a (f x))
    (fun acc x hacc => addUnique_nodup acc (f x) hacc) xs acc h

theorem extract_endpoints_body_nodup (doc : HtmlDoc) :
    (extract_endpoints_body doc).Nodup := by
  unfold extract_endpoints_body strategy4 strategy3 strategy2 strategy1
  apply foldl_addUnique_nodup
  apply foldl_preserve_nodup
  · intro acc el hacc
    exact foldl_addUnique_nodup _ _ acc hacc
  apply foldl_preserve_nodup
  · intro acc row hacc
    by_cases hlen : row.1.length ≥ 2
    · simp only [hlen, if_pos]
      exact foldl_addUnique_nodup _ _ acc hacc
    · simp only [hlen, if_neg, if_false]
      exact hacc
  apply foldl_preserve_nodup
  · intro acc block hacc
    exact foldl_addUnique_nodup _ _ acc hacc
  exact List.nodup_nil

/-- C4 counterexample: a run of the AI loop in which round 1 reports
the method in lower case and round 2 repeats the same endpoint in
upper case.  The verbatim keys differ, so both entries survive: the
returned list carries two distinct endpoints with the same
case-normalized method and the same verbatim path, refuting the claim
that every returned list holds at most one endpoint per
case-normalized key. -/
theorem dedup_key_counterexample :
    (search_company_api "Acme"
      ⟨"Acme", true, "REST", "https://api.acme.test", [⟨"get", "/a", "d1"⟩], ""⟩
      (fun i _ => if i = 1 then [⟨"GET", "/a", "d2"⟩] else [])).1.endpoints =
      [⟨"get", "/a", "d1"⟩, ⟨"GET", "/a", "d2"⟩] ∧
    pyUpper "get" = pyUpper "GET" ∧
    (⟨"get", "/a", "d1"⟩ : Endpoint) ≠ ⟨"GET", "/a", "d2"⟩ := by
  refine ⟨rfl, rfl, by decide⟩

/-- C4 amended: deduplication does not use one case-normalized
(method, path) key everywhere.  The AI loop filters an incoming round
only against the previously accumulated endpoints and compares the
verbatim method-colon-path string, so method case distinguishes
entries and duplicates inside a single round both survive; the
heuristic extractor admits a candidate only when the whole record
(method upper-cased at construction, path stripped, description,
full_endpoint) is not yet present, so its output never repeats a full
record but may hold several records per (method, path) key. -/
theorem dedup_key_amended :
    (∀ (newEndpoints allEndpoints : List Endpoint) (ep : Endpoint),
      ep ∈ uniqueNew newEndpoints allEndpoints →
      ep ∈ newEndpoints ∧ epKey ep ∉ allEndpoints.map epKey) ∧
    (∀ doc : HtmlDoc, (extract_endpoints_body doc).Nodup) :=
  ⟨fun _ _ _ h => mem_uniqueNew h, extract_endpoints_body_nodup⟩

/-- Witness for the amended C4 at concrete inputs. -/
theorem dedup_key_amended_witness :
    ((⟨"GET", "/new", "d"⟩ : Endpoint) ∈ [(⟨"GET", "/new", "d"⟩ : Endpoint)] ∧
      epKey ⟨"GET", "/new", "d"⟩ ∉
        ([⟨"POST", "/old", "x"⟩] : List Endpoint).map epKey) ∧
    (extract_endpoints_body ⟨[], [], [], ""⟩).Nodup :=
  ⟨dedup_key_amended.1 [⟨"GET", "/new", "d"⟩] [⟨"POST", "/old", "x"⟩]
      ⟨"GET", "/new", "d"⟩ (by decide),
   dedup_key_amended.2 ⟨[], [], [], ""⟩⟩

/-! ### C8: documentation URL discovery -/

theorem probeList_spec (http : String → Option (Nat × String)) :
    ∀ urls : List String,
    (∀ url, probeList http urls = some url →
      ∃ pre post, urls = pre ++ url :: post ∧ urlQualifies http url ∧
        ∀ u ∈ pre, ¬ urlQualifies http u) ∧
    (probeList http urls = none ↔ ∀ u ∈ urls, ¬ urlQualifies http u) := by
  intro urls
  induction urls with
  | nil =>
    constructor
    · intro url h
      simp [probeList] at h
    · simp [probeList]
  | cons u rest ih =>
    have hstep_pos : urlQualifies http u → probeList http (u :: rest) = some u := by
      rintro ⟨text, htext, hkw⟩
      simp [probeList, htext, hkw]
    have hstep_neg : ¬ urlQualifies http u →
        probeList http (u :: rest) = probeList http rest := by
      intro hq
      simp only [probeList]
      cases htext : http u with
      | none => rfl
      | some p =>
        obtain ⟨status, text⟩ := p
        rcases Bool.eq_false_or_eq_true (status == 200 && hasApiKeyword text) with hb | hb
        · exfalso
          apply hq
          have hparts := (Bool.and_eq_true _ _).mp hb
          have hs : status = 200 := by simpa using hparts.1
          exact ⟨text, by rw [← hs]; exact htext, hparts.2⟩
        · simp [hb]
    constructor
    · intro url h
      by_cases hq : urlQualifies http u
      · rw [hstep_pos hq] at h
        injection h with h
        subst h
        exact ⟨[], rest, rfl, hq, by simp⟩
      · rw [hstep_neg hq] at h
        obtain ⟨pre, post, heq, hqual, hpre⟩ := ih.1 url h
        refine ⟨u :: pre, post, by rw [heq]; rfl, hqual, ?_⟩
        intro v hv
        rcases List.mem_cons.mp hv with hv | hv
        · rw [hv]; exact hq
        · exact hpre v hv
    · by_cases hq : urlQualifies http u
      · rw [hstep_pos hq]
        constructor
        · intro hcontra; cases hcontra
        · intro hall
          exact absurd hq (hall u (by simp))
      · rw [hstep_neg hq, ih.2]
        constructor
        · intro hall v hv
          rcases List.mem_cons.mp hv with hv | hv
          · rw [hv]; exact hq
          · exact hall v hv
        · intro hall v hv
          exact hall v (by simp [hv])

/-- C8: the documentation URL discovery probes the fixed ordered list
of name-templated candidates and returns the first candidate whose
response has status 200 and whose page text carries one of the
keywords api, endpoint, rest, graphql, documentation; it returns
nothing exactly when no candidate qualifies, so it never returns a
later candidate past a qualifying earlier one and never more than one
URL. -/
theorem doc_url_discovery_first_hit (http : String → Option (Nat × String))
    (company_name : String) :
    (∀ url, search_for_api_documentation http company_name = some url →
      ∃ pre post, common_domains company_name = pre ++ url :: post ∧
        urlQualifies http url ∧ ∀ u ∈ pre, ¬ urlQualifies http u) ∧
    (search_for_api_documentation http company_name = none ↔
      ∀ u ∈ common_domains company_name, ¬ urlQualifies http u) :=
  probeList_spec http (common_domains company_name)

/-- Witness for C8: with the mocked transport answering 200 and the
body REST API Endpoints only for the examplecorp api subdomain,
discovery returns exactly that URL, it qualifies, and nothing before
it does. -/
theorem doc_url_discovery_first_hit_witness :
    search_for_api_documentation mockHttp "ExampleCorp" =
      some "https://api.examplecorp.com" ∧
    ∃ pre post, common_domains "ExampleCorp" =
        pre ++ "https://api.examplecorp.com" :: post ∧
      urlQualifies mockHttp "https://api.examplecorp.com" ∧
      ∀ u ∈ pre, ¬ urlQualifies mockHttp u :=
  ⟨rfl, (doc_url_discovery_first_hit mockHttp "ExampleCorp").1
    "https://api.examplecorp.com" rfl⟩

/-! ### Helper lemmas for C9: the code point order on strings -/

theorem listLtb_irrefl : ∀ x : List Char, listLtb x x = false := by
  intro x
  induction x with
  | nil => rfl
  | cons a as ih => simp [listLtb, ih]

theorem listLtb_asymm : ∀ x y : List Char, listLtb x y = true → listLtb y x = false := by
  intro x
  induction x with
  | nil =>
    intro y h
    cases y with
    | nil => simp [listLtb] at h
    | cons b bs => rfl
  | cons a as ih =>
    intro y h
    cases y with
    | nil => simp [listLtb] at h
    | cons b bs =>
      simp only [listLtb] at h ⊢
      by_cases hab : a.toNat < b.toNat
      · have hba : ¬ b.toNat < a.toNat := by omega
        simp [hab, hba]
      · by_cases hba : b.toNat < a.toNat
        · rw [if_neg hab, if_pos hba] at h
          simp at h
        · rw [if_neg hab, if_neg hba] at h
          rw [if_neg hba, if_neg hab]
          exact ih bs h

theorem listLtb_trans :
    ∀ x y z : List Char, listLtb x y = true → listLtb y z = true → listLtb x z = true := by
  intro x
  induction x with
  | nil =>
    intro y z hxy hyz
    cases y with
    | nil => simp [listLtb] at hxy
    | cons b bs =>
      cases z with
      | nil => simp [listLtb] at hyz
      | cons c cs2 => rfl
  | cons a as ih =>
    intro y z hxy hyz
    cases y with
    | nil => simp [listLtb] at hxy
    | cons b bs =>
      cases z with
      | nil => simp [listLtb] at hyz
      | cons c cs2 =>
        simp only [listLtb] at hxy hyz ⊢
        by_cases hab : a.toNat < b.toNat <;> by_cases hbc : b.toNat < c.toNat
        · have hac : a.toNat < c.toNat := by omega
          simp [hac]
        · by_cases hcb : c.toNat < b.toNat
          · rw [if_neg hbc, if_pos hcb] at hyz
            simp at hyz
          · have hac : a.toNat < c.toNat := by omega
            simp [hac]
        · by_cases hba : b.toNat < a.toNat
          · rw [if_neg hab, if_pos hba] at hxy
            simp at hxy
          · have hac : a.toNat < c.toNat := by omega
            simp [hac]
        · by_cases hba : b.toNat < a.toNat
          · rw [if_neg hab, if_pos hba] at hxy
            simp at hxy
          · by_cases hcb : c.toNat < b.toNat
            · rw [if_neg hbc, if_pos hcb] at hyz
              simp at hyz
            · rw [if_neg hab, if_neg hba] at hxy
              rw [if_neg hbc, if_neg hcb] at hyz
              have hac : ¬ a.toNat < c.toNat := by omega
              have hca : ¬ c.toNat < a.toNat := by omega
              rw [if_neg hac, if_neg hca]
              exact ih bs cs2 hxy hyz

theorem listLtb_eq_of_not :
    ∀ x y : List Char, listLtb x y = false → listLtb y x = false → x = y := by
  intro x
  induction x with
  | nil =>
    intro y h1 h2
    cases y with
    | nil => rfl
    | cons b bs => simp [listLtb] at h1
  | cons a as ih =>
    intro y h1 h2
    cases y with
    | nil => simp [listLtb] at h2
    | cons b bs =>
      simp only [listLtb] at h1 h2
      by_cases hab : a.toNat < b.toNat
      · rw [if_pos hab] at h1
        simp at h1
      · by_cases hba : b.toNat < a.toNat
        · rw [if_pos hba] at h2
          simp at h2
        · rw [if_neg hab, if_neg hba] at h1
          have htn : a.toNat = b.toNat := by omega
          have heq : a = b := Char.eq_of_val_eq (UInt32.toNat.inj htn)
          rw [heq, ih bs h1 (by rw [if_neg hba, if_neg hab] at h2; exact h2)]

theorem listLtb_neg_trans (x y z : List Char)
    (h1 : listLtb x y = false) (h2 : listLtb y z = false) : listLtb x z = false := by
  cases h : listLtb x z with
  | false => rfl
  | true =>
    exfalso
    cases hyx : listLtb y x with
    | false =>
      have hxy : x = y := listLtb_eq_of_not x y h1 hyx
      rw [hxy, h2] at h
      cases h
    | true =>
      have := listLtb_trans y x z hyx h
      rw [this] at h2
      cases h2

theorem strLtb_eq_of_not (a b : String)
    (h1 : strLtb a b = false) (h2 : strLtb b a = false) : a = b := by
  cases a with
  | mk da =>
    cases b with
    | mk db =>
      have : da = db := listLtb_eq_of_not da db h1 h2
      rw [this]

theorem endpointRowLe_trans (a b c : Endpoint)
    (h1 : endpointRowLe a b = true) (h2 : endpointRowLe b c = true) :
    endpointRowLe a c = true := by
  unfold endpointRowLe at h1 h2 ⊢
  by_cases pab : strLtb a.path b.path = true
  · by_cases pbc : strLtb b.path c.path = true
    · have := listLtb_trans _ _ _ pab pbc
      simp [strLtb, this]
    · by_cases pcb : strLtb c.path b.path = true
      · rw [if_neg pbc, if_pos pcb] at h2
        simp at h2
      · have heq : b.path = c.path := strLtb_eq_of_not _ _
          (Bool.eq_false_iff.mpr pbc) (Bool.eq_false_iff.mpr pcb)
        rw [← heq]
        simp [pab]
  · by_cases pba : strLtb b.path a.path = true
    · rw [if_neg pab, if_pos pba] at h1
      simp at h1
    · have heqab : a.path = b.path := strLtb_eq_of_not _ _
        (Bool.eq_false_iff.mpr pab) (Bool.eq_false_iff.mpr pba)
      rw [if_neg pab, if_neg pba] at h1
      by_cases pbc : strLtb b.path c.path = true
      · rw [heqab]
        simp [pbc]
      · by_cases pcb : strLtb c.path b.path = true
        · rw [if_neg pbc, if_pos pcb] at h2
          simp at h2
        · have heqbc : b.path = c.path := strLtb_eq_of_not _ _
            (Bool.eq_false_iff.mpr pbc) (Bool.eq_false_iff.mpr pcb)
          rw [if_neg pbc, if_neg pcb] at h2
          have pac : strLtb a.path c.path = false := by
            rw [heqab, heqbc]
            exact listLtb_irrefl _
          have pca : strLtb c.path a.path = false := by
            rw [heqab, heqbc]
            exact listLtb_irrefl _
          rw [if_neg (by simp [pac]), if_neg (by simp [pca])]
          have hm1 : strLtb b.method a.method = false := by simpa using h1
          have hm2 : strLtb c.method b.method = false := by simpa using h2
          have : strLtb c.method a.method = false := listLtb_neg_trans _ _ _ hm2 hm1
          simp [this]

theorem endpointRowLe_total (a b : Endpoint) :
    (endpointRowLe a b || endpointRowLe b a) = true := by
  unfold endpointRowLe
  by_cases pab : strLtb a.path b.path = true
  · simp [pab]
  · by_cases pba : strLtb b.path a.path = true
    · simp [pab, pba]
    · cases hm : strLtb b.method a.method with
      | false => simp [pab, pba, hm]
      | true =>
        have hasym := listLtb_asymm _ _ hm
        simp only [if_neg pab, if_neg pba, hm]
        simp [strLtb, hasym]

/-! ### C9: the spreadsheet exporters -/

/-- C9 counterexample: the heuristic-path exporter of
excel_exporter.py writes its data rows in input order without any
sort, so an input whose paths arrive in descending order produces rows
not ordered by (path, method): the first written row has path /b, the
second path /a, and /a precedes /b in the code point order. -/
theorem exporter_sort_counterexample :
    heur_create_spreadsheet_rows
      [⟨"GET", "/b", "", "GET /b"⟩, ⟨"GET", "/a", "", "GET /a"⟩] =
      [("GET", "/b", "GET /b", "", ""), ("GET", "/a", "GET /a", "", "")] ∧
    strLtb "/a" "/b" = true :=
  ⟨rfl, rfl⟩

/-- C9 amended: the AI-path exporter writes exactly one data row per
input endpoint, with method, path and description cells equal to the
input fields (the rows are a permutation of the input cell triples)
and the rows sorted ascending by (path, method); the heuristic-path
exporter writes exactly one row per endpoint with cells equal to the
input fields (method, path, full endpoint, description and an empty
notes cell), in input order, without sorting. -/
theorem exporter_rows_spec (endpoints : List Endpoint) (heps : List HEndpoint) :
    (ai_create_spreadsheet_rows endpoints).length = endpoints.length ∧
    (ai_create_spreadsheet_rows endpoints).Perm
      (endpoints.map (fun e => (e.method, e.path, e.description))) ∧
    List.Pairwise (fun r s => rowKeyLe r s = true) (ai_create_spreadsheet_rows endpoints) ∧
    List.Forall₂ (fun e r => r = (e.method, e.path, e.full_endpoint, e.description, ""))
      heps (heur_create_spreadsheet_rows heps) := by
  refine ⟨?_, ?_, ?_, ?_⟩
  · simp [ai_create_spreadsheet_rows, List.length_mergeSort]
  · exact List.Perm.map _ (List.mergeSort_perm endpoints endpointRowLe)
  · rw [ai_create_spreadsheet_rows, List.pairwise_map]
    have h := List.sorted_mergeSort
      (fun a b c => endpointRowLe_trans a b c)
      (fun a b => endpointRowLe_total a b) endpoints
    exact h
  · induction heps with
    | nil => simp [heur_create_spreadsheet_rows]
    | cons e es ih =>
      simp only [heur_create_spreadsheet_rows, List.map_cons]
      exact List.Forall₂.cons rfl (by simp [heur_create_spreadsheet_rows] at ih ⊢)
